import Mathlib

/-!
Verification of the BitTorrentBlocker decision engine.

The data-plane predicate is embedded from src/internal/xdp/blocker.c
(the function xdp_blocker and the map declaration blocked_ips).
A frame is a list of bytes; the blocked_ips hash map is an association
list from the 32-bit source address to the 64-bit expiration timestamp.
Machine integers are modelled as Nat: no arithmetic in the embedded code
can overflow (the predicate only compares fields and the table only
stores values), so no explicit modular reduction is needed.

The table operations (insert, remove, sweep, ban) and the
checked-expiration variant of the predicate belong to the repository but
are not under src/; they are modelled from the spec, each marked
`Modelled from the spec:` in its doc comment.
-/

namespace Blocker

/-- XDP action code XDP_ABORTED from the source. -/
def XDP_ABORTED : Nat := 0

/-- XDP action code XDP_DROP from the source. -/
def XDP_DROP : Nat := 1

/-- XDP action code XDP_PASS from the source. -/
def XDP_PASS : Nat := 2

/-- EtherType for IPv4, ETH_P_IP 0x0800 from the source. -/
def ETH_P_IP : Nat := 0x0800

/-- Capacity of the blocked_ips map: max_entries 100000 from the source. -/
def MAX_ENTRIES : Nat := 100000

/-- A frame is the raw byte sequence between data and data_end. -/
abbrev Frame := List Nat

/-- Every byte of the frame is an 8-bit value. -/
abbrev ByteOk (f : Frame) : Prop := ∀ b ∈ f, b < 256

/-- The blocked_ips map: an association list from the 32-bit source
address (network byte order, as the source stores it) to the 64-bit
expiration timestamp. -/
abbrev Table := List (Nat × Nat)

/-- Map lookup: the first entry whose key equals a, as in a hash map
with unique keys. -/
def lookup (a : Nat) : Table → Option Nat
  | [] => none
  | p :: t => if p.1 = a then some p.2 else lookup a t

/-- The table invariant of a hash map: every key appears at most once. -/
abbrev keysNodup (t : Table) : Prop := (t.map Prod.fst).Nodup

/-- sizeof(struct ethhdr): 6 + 6 + 2 bytes, packed. -/
def sizeof_ethhdr : Nat := 14

/-- sizeof(struct iphdr): 20 bytes, packed. -/
def sizeof_iphdr : Nat := 20

/-- The check eth->h_proto == bpf_htons(ETH_P_IP) from the source.
h_proto is the raw 16-bit field at frame offset 12; equality of a 16-bit
field is equality of its two bytes, and bpf_htons(ETH_P_IP) has wire
bytes 0x08 (= ETH_P_IP / 256) and 0x00 (= ETH_P_IP % 256). -/
def ethProtoIsIPv4 (f : Frame) : Bool :=
  (f.getD 12 0 == ETH_P_IP / 256) && (f.getD 13 0 == ETH_P_IP % 256)

/-- The raw 32-bit load ip->saddr from the source: the 4 bytes at frame
offset sizeof_ethhdr + 12 = 26. The map key is this raw 4-byte value; we
encode it as a Nat in network byte order (the order the bytes appear on
the wire), a bijective encoding of the byte quadruple, the same encoding
under which the control plane stores keys. -/
def saddr (f : Frame) : Nat :=
  ((f.getD 26 0 * 256 + f.getD 27 0) * 256 + f.getD 28 0) * 256 + f.getD 29 0

/-- The EtherType field of a frame: the 16-bit value at offsets 12 and
13 read in network byte order. Used to state claims about frames whose
EtherType is ETH_P_IP; compared against the byte-level check the source
performs. -/
def etherType (f : Frame) : Nat := f.getD 12 0 * 256 + f.getD 13 0

/-- The XDP program xdp_blocker from the source (deferred-expiration
policy): parse the Ethernet header, require IPv4, parse the IP header,
look up the source address in blocked_ips and DROP exactly when it is
present; expiration checking is left to the user-space cleanup. -/
def xdp_blocker (f : Frame) (blocked_ips : Table) : Nat :=
  if f.length < sizeof_ethhdr then XDP_PASS
  else if ethProtoIsIPv4 f = false then XDP_PASS
  else if f.length < sizeof_ethhdr + sizeof_iphdr then XDP_PASS
  else
    match lookup (saddr f) blocked_ips with
    | some _ => XDP_DROP
    | none => XDP_PASS

/-- The read-only map helper bpf_map_lookup_elem, with the map state
threaded explicitly: it returns the lookup result and the (unchanged)
map. -/
def bpf_map_lookup_elem (t : Table) (a : Nat) : Option Nat × Table :=
  (lookup a t, t)

/-- xdp_blocker with the table state threaded explicitly through the one
map helper the source calls, so that the absence of side effects is a
provable statement: the second component is the table after evaluation. -/
def xdp_blocker_st (f : Frame) (t : Table) : Nat × Table :=
  if f.length < sizeof_ethhdr then (XDP_PASS, t)
  else if ethProtoIsIPv4 f = false then (XDP_PASS, t)
  else if f.length < sizeof_ethhdr + sizeof_iphdr then (XDP_PASS, t)
  else
    match bpf_map_lookup_elem t (saddr f) with
    | (some _, t2) => (XDP_DROP, t2)
    | (none, t2) => (XDP_PASS, t2)

/-- Modelled from the spec: the checked-expiration variant of the
predicate, a source variant not present under src/. Identical parsing;
on a hit, if now < expires_at then DROP else PASS (stale entry left for
the sweep to remove later). -/
def xdp_blocker_checked (now : Nat) (f : Frame) (t : Table) : Nat :=
  if f.length < sizeof_ethhdr then XDP_PASS
  else if ethProtoIsIPv4 f = false then XDP_PASS
  else if f.length < sizeof_ethhdr + sizeof_iphdr then XDP_PASS
  else
    match lookup (saddr f) t with
    | some expires_at => if now < expires_at then XDP_DROP else XDP_PASS
    | none => XDP_PASS

/-- The explicit failure of an insertion into a full table. -/
inductive TableError where
  | CapacityExceeded
deriving DecidableEq

/-- Overwrite the value stored under key a, leaving all other entries
unchanged. Helper for insert. -/
def overwrite (a e : Nat) (t : Table) : Table :=
  t.map (fun p => if p.1 = a then (a, e) else p)

/-- Modelled from the spec: insert(addr, expires_at), the control-plane
table insertion, not under src/. Idempotent per address (a second insert
overwrites); fails explicitly with CapacityExceeded if the table is at
capacity (MAX_ENTRIES, from the blocked_ips declaration) and addr is
new. -/
def insert (a e : Nat) (t : Table) : Except TableError Table :=
  if (lookup a t).isSome then .ok (overwrite a e t)
  else if MAX_ENTRIES ≤ t.length then .error .CapacityExceeded
  else .ok ((a, e) :: t)

/-- Modelled from the spec: remove(addr), not under src/. Returns
whether an entry existed, and the table without any entry for addr. -/
def remove (a : Nat) (t : Table) : Bool × Table :=
  ((lookup a t).isSome, t.filter (fun p => decide (p.1 ≠ a)))

/-- Modelled from the spec: sweep(now), not under src/. Removes every
entry whose expiration has elapsed (expires_at <= now) and returns how
many were removed, together with the new table. -/
def sweep (now : Nat) (t : Table) : Nat × Table :=
  ((t.filter (fun p => decide (p.2 ≤ now))).length,
   t.filter (fun p => decide (now < p.2)))

/-- Modelled from the spec: ban(addr, duration), not under src/.
Computes expires_at = now + duration and inserts it. -/
def ban (a duration now : Nat) (t : Table) : Except TableError Table :=
  insert a (now + duration) t

/-- Number of entries stored under key a: the multiplicity of a among
the keys. -/
def countKey (a : Nat) (t : Table) : Nat :=
  (t.map Prod.fst).count a

/-- A concrete well-formed frame: 34 bytes, EtherType 0x0800 at offsets
12 and 13, source address bytes 10.0.0.1 at offsets 26 to 29 and
destination address bytes 192.168.0.1 at offsets 30 to 33. -/
def wframe : Frame :=
  List.replicate 12 0 ++ [8, 0] ++ List.replicate 12 0 ++
    [10, 0, 0, 1] ++ [192, 168, 0, 1]

/-- The network-order encoding of 10.0.0.1, the source address of
wframe. -/
def waddr : Nat := ((10 * 256 + 0) * 256 + 0) * 256 + 1

/-- A table holding exactly MAX_ENTRIES distinct addresses. -/
def fullT : Table := (List.range MAX_ENTRIES).map (fun i => (i, 0))

theorem lookup_eq_none_of (a : Nat) (t : Table) (h : ∀ p ∈ t, p.1 ≠ a) :
    lookup a t = none := by
  induction t with
  | nil => rfl
  | cons p t ih =>
    have hp := h p (List.mem_cons_self p t)
    simp only [lookup, if_neg hp]
    exact ih fun q hq => h q (List.mem_cons_of_mem p hq)

theorem lookup_isSome_iff_mem_keys (a : Nat) (t : Table) :
    (lookup a t).isSome = true ↔ a ∈ t.map Prod.fst := by
  induction t with
  | nil => simp [lookup]
  | cons p t ih =>
    by_cases hp : p.1 = a
    · simp [lookup, hp]
    · simp [lookup, hp, ih, Ne.symm hp]

theorem lookup_some_mem (a e : Nat) (t : Table) (h : lookup a t = some e) :
    (a, e) ∈ t := by
  induction t with
  | nil => simp [lookup] at h
  | cons p t ih =>
    by_cases hp : p.1 = a
    · simp only [lookup, if_pos hp] at h
      obtain ⟨k, v⟩ := p
      obtain rfl : k = a := hp
      obtain rfl : v = e := Option.some.inj h
      exact List.mem_cons_self _ _
    · simp only [lookup, if_neg hp] at h
      exact List.mem_cons_of_mem p (ih h)

/-- Claim C4: the predicate is total: for every frame and table it
returns exactly one verdict, and that verdict is XDP_PASS or XDP_DROP,
never any other action code and never an error. -/
theorem xdp_blocker_total (f : Frame) (t : Table) :
    xdp_blocker f t = XDP_PASS ∨ xdp_blocker f t = XDP_DROP := by
  unfold xdp_blocker
  repeat' split
  all_goals first | exact Or.inl rfl | exact Or.inr rfl

/-- Claim C5: the predicate is side-effect-free: with the table state
threaded explicitly through the one map helper the source calls, the
table after evaluation is exactly the table before, for every frame and
every table state — no entry is inserted, overwritten or removed. -/
theorem xdp_blocker_no_side_effect (f : Frame) (t : Table) :
    xdp_blocker_st f t = (xdp_blocker f t, t) := by
  cases hl : lookup (saddr f) t <;>
    simp only [xdp_blocker_st, xdp_blocker, bpf_map_lookup_elem, hl] <;>
    (repeat' split) <;> rfl

/-- Claim C3: a frame too short for a complete Ethernet header, or with
a non-IPv4 link-layer type, or too short for a complete IPv4 header
after the Ethernet header, yields XDP_PASS regardless of the table
contents; each of the three checks is a terminal decision. -/
theorem xdp_blocker_pass_of_malformed (f : Frame) (t : Table)
    (h : f.length < sizeof_ethhdr ∨ ethProtoIsIPv4 f = false ∨
      f.length < sizeof_ethhdr + sizeof_iphdr) :
    xdp_blocker f t = XDP_PASS := by
  unfold xdp_blocker
  rcases h with h | h | h
  · rw [if_pos h]
  · by_cases h14 : f.length < sizeof_ethhdr
    · rw [if_pos h14]
    · rw [if_neg h14, if_pos h]
  · by_cases h14 : f.length < sizeof_ethhdr
    · rw [if_pos h14]
    · rw [if_neg h14]
      by_cases hip : ethProtoIsIPv4 f = false
      · rw [if_pos hip]
      · rw [if_neg hip, if_pos h]

/-- Witness for claim C3: the empty frame passes even with a nonempty
table. -/
theorem xdp_blocker_pass_of_malformed_witness :
    xdp_blocker [] [(0, 0)] = XDP_PASS :=
  xdp_blocker_pass_of_malformed [] [(0, 0)] (Or.inl (by decide))

theorem xdp_blocker_wellformed (f : Frame) (t : Table)
    (hlen : sizeof_ethhdr + sizeof_iphdr ≤ f.length)
    (hip : ethProtoIsIPv4 f = true) :
    xdp_blocker f t =
      if (lookup (saddr f) t).isSome then XDP_DROP else XDP_PASS := by
  have h34 : ¬ f.length < sizeof_ethhdr + sizeof_iphdr := not_lt.mpr hlen
  have h14 : ¬ f.length < sizeof_ethhdr :=
    not_lt.mpr (le_trans (Nat.le_add_right _ _) hlen)
  unfold xdp_blocker
  rw [if_neg h14, if_neg (by simp [hip]), if_neg h34]
  cases hl : lookup (saddr f) t <;> simp

/-- Claim C1: for every frame long enough for both headers and with
link-layer type IPv4, the verdict is XDP_DROP exactly when the source
address is a key of the table, and XDP_PASS when it is absent; no
timestamp comparison occurs (the stored value is never inspected). -/
theorem xdp_blocker_drop_iff_present (f : Frame) (t : Table)
    (hlen : sizeof_ethhdr + sizeof_iphdr ≤ f.length)
    (hip : ethProtoIsIPv4 f = true) :
    (xdp_blocker f t = XDP_DROP ↔ (lookup (saddr f) t).isSome = true) ∧
    (lookup (saddr f) t = none → xdp_blocker f t = XDP_PASS) := by
  rw [xdp_blocker_wellformed f t hlen hip]
  cases hl : lookup (saddr f) t <;> simp [XDP_DROP, XDP_PASS]

/-- Witness for claim C1: the concrete frame wframe is dropped when its
source address is in the table and passed when the table is empty. -/
theorem xdp_blocker_drop_iff_present_witness :
    xdp_blocker wframe [(waddr, 0)] = XDP_DROP ∧
    xdp_blocker wframe [] = XDP_PASS :=
  ⟨(xdp_blocker_drop_iff_present wframe [(waddr, 0)] (by decide)
      (by decide)).1.mpr (by decide),
   (xdp_blocker_drop_iff_present wframe [] (by decide) (by decide)).2
      (by decide)⟩

/-- Claim C9: the verdict depends only on the frame bytes and the key
set of the table: two tables whose lookups agree on presence (isSome)
for every address — whatever 64-bit expiration values they store —
yield the same verdict on every frame; no stored value and no clock
reading influences the decision. -/
theorem xdp_blocker_depends_only_on_keys (t1 t2 : Table)
    (h : ∀ a, (lookup a t1).isSome = (lookup a t2).isSome) (f : Frame) :
    xdp_blocker f t1 = xdp_blocker f t2 := by
  unfold xdp_blocker
  have hk := h (saddr f)
  cases h1 : lookup (saddr f) t1 <;> cases h2 : lookup (saddr f) t2 <;>
    simp_all

/-- Witness for claim C9: two tables that block the same address with
different stored expirations give the same verdict on wframe. -/
theorem xdp_blocker_depends_only_on_keys_witness :
    xdp_blocker wframe [(waddr, 5)] = xdp_blocker wframe [(waddr, 99999)] :=
  xdp_blocker_depends_only_on_keys [(waddr, 5)] [(waddr, 99999)]
    (fun a => by by_cases h : waddr = a <;> simp [lookup, h]) wframe

theorem getD_mem (f : Frame) (i : Nat) (h : i < f.length) (d : Nat) :
    f.getD i d ∈ f := by
  induction f generalizing i with
  | nil => simp at h
  | cons x xs ih =>
    cases i with
    | zero => simp [List.getD]
    | succ n =>
      simp only [List.getD_cons_succ]
      exact List.mem_cons_of_mem x (ih n (by simpa using h))

theorem ethProtoIsIPv4_of_etherType (f : Frame) (hb : ByteOk f)
    (hlen : 14 ≤ f.length) (h : etherType f = ETH_P_IP) :
    ethProtoIsIPv4 f = true := by
  have h13 : f.getD 13 0 < 256 := hb _ (getD_mem f 13 (by omega) 0)
  unfold etherType ETH_P_IP at h
  unfold ethProtoIsIPv4 ETH_P_IP
  simp only [Bool.and_eq_true, beq_iff_eq]
  simp only [List.getD_eq_getElem?_getD] at h h13 ⊢
  omega

/-- Claim C10: the predicate validates neither the IPv4 version field,
nor the header-length field, nor the checksum: for every byte-valid
frame of at least 34 bytes whose EtherType field equals 0x0800, the
verdict is decided solely by looking up the 4 bytes at offsets 26 to 29
(network byte order) in the table — with no hypothesis on the
version/ihl byte at offset 14 or any other header byte. -/
theorem xdp_blocker_no_header_validation (f : Frame) (t : Table)
    (hb : ByteOk f) (hlen : 34 ≤ f.length) (hety : etherType f = ETH_P_IP) :
    xdp_blocker f t =
      if (lookup (saddr f) t).isSome then XDP_DROP else XDP_PASS := by
  have hip : ethProtoIsIPv4 f = true :=
    ethProtoIsIPv4_of_etherType f hb (by omega) hety
  exact xdp_blocker_wellformed f t
    (by unfold sizeof_ethhdr sizeof_iphdr; omega) hip

/-- Witness for claim C10: wframe has version nibble 0 and ihl 0 at
offset 14 (not a valid IPv4 header), yet the verdict is still decided
by the source-address lookup. -/
theorem xdp_blocker_no_header_validation_witness :
    xdp_blocker wframe [(waddr, 123)] =
      if (lookup (saddr wframe) [(waddr, 123)]).isSome then XDP_DROP
      else XDP_PASS :=
  xdp_blocker_no_header_validation wframe [(waddr, 123)] (by decide)
    (by decide) (by decide)

/-- Claim C2: under the checked-expiration policy, for every well-formed
IPv4 frame whose source address is stored with expiration expires_at,
the verdict is XDP_DROP when now < expires_at and XDP_PASS when
now >= expires_at, the stale entry remaining physically present. -/
theorem xdp_blocker_checked_spec (now : Nat) (f : Frame) (t : Table)
    (hlen : sizeof_ethhdr + sizeof_iphdr ≤ f.length)
    (hip : ethProtoIsIPv4 f = true) (e : Nat)
    (hfound : lookup (saddr f) t = some e) :
    xdp_blocker_checked now f t =
      if now < e then XDP_DROP else XDP_PASS := by
  have h34 : ¬ f.length < sizeof_ethhdr + sizeof_iphdr := not_lt.mpr hlen
  have h14 : ¬ f.length < sizeof_ethhdr :=
    not_lt.mpr (le_trans (Nat.le_add_right _ _) hlen)
  unfold xdp_blocker_checked
  rw [if_neg h14, if_neg (by simp [hip]), if_neg h34, hfound]

/-- Witness for claim C2: ban(10.0.0.1, 1) at time 100 stores expiration
101; checked evaluation at time 102 yields XDP_PASS while the entry is
still physically present in the table. -/
theorem xdp_blocker_checked_spec_witness :
    ban waddr 1 100 [] = .ok [(waddr, 101)] ∧
    xdp_blocker_checked 102 wframe [(waddr, 101)] = XDP_PASS ∧
    lookup waddr [(waddr, 101)] = some 101 := by
  refine ⟨rfl, ?_, by decide⟩
  have h := xdp_blocker_checked_spec 102 wframe [(waddr, 101)]
    (by decide) (by decide) 101 (by decide)
  simpa using h

theorem overwrite_keys (a e : Nat) (t : Table) :
    (overwrite a e t).map Prod.fst = t.map Prod.fst := by
  simp only [overwrite, List.map_map]
  refine List.map_congr_left ?_
  intro p _
  by_cases hp : p.1 = a <;> simp [hp]

theorem overwrite_length (a e : Nat) (t : Table) :
    (overwrite a e t).length = t.length := by
  simp [overwrite]

theorem lookup_overwrite_self (a e : Nat) (t : Table)
    (h : (lookup a t).isSome) : lookup a (overwrite a e t) = some e := by
  induction t with
  | nil => simp [lookup] at h
  | cons p t ih =>
    by_cases hp : p.1 = a
    · simp [overwrite, lookup, hp]
    · have h2 : (lookup a t).isSome := by simpa [lookup, hp] using h
      have ih2 := ih h2
      simp only [overwrite] at ih2 ⊢
      simp [List.map_cons, if_neg hp, lookup, hp, ih2]

theorem keysNodup_overwrite (a e : Nat) (t : Table) (h : keysNodup t) :
    keysNodup (overwrite a e t) := by
  unfold keysNodup
  rw [overwrite_keys]
  exact h

theorem countKey_overwrite (b a e : Nat) (t : Table) :
    countKey b (overwrite a e t) = countKey b t := by
  unfold countKey
  rw [overwrite_keys]

theorem countKey_eq_one (a : Nat) (t : Table) (hnd : keysNodup t)
    (h : (lookup a t).isSome) : countKey a t = 1 :=
  List.count_eq_one_of_mem hnd ((lookup_isSome_iff_mem_keys a t).mp h)

theorem insert_ok_spec (a e : Nat) (t t2 : Table) (hnd : keysNodup t)
    (h : insert a e t = .ok t2) :
    lookup a t2 = some e ∧ countKey a t2 = 1 ∧ keysNodup t2 := by
  unfold insert at h
  by_cases hs : (lookup a t).isSome
  · rw [if_pos hs] at h
    injection h with h
    subst h
    refine ⟨lookup_overwrite_self a e t hs, ?_,
      keysNodup_overwrite a e t hnd⟩
    rw [countKey_overwrite]
    exact countKey_eq_one a t hnd hs
  · rw [if_neg hs] at h
    by_cases hc : MAX_ENTRIES ≤ t.length
    · rw [if_pos hc] at h
      exact absurd h (by simp)
    · rw [if_neg hc] at h
      injection h with h
      subst h
      have hmem : a ∉ t.map Prod.fst := fun hm =>
        hs ((lookup_isSome_iff_mem_keys a t).mpr hm)
      refine ⟨by simp [lookup], ?_, ?_⟩
      · unfold countKey
        simp [List.count_cons_self, List.count_eq_zero.mpr hmem]
      · unfold keysNodup
        simp only [List.map_cons, List.nodup_cons]
        exact ⟨hmem, hnd⟩

theorem lookup_filter (a : Nat) (t : Table) (keep : Nat × Nat → Bool)
    (hnd : keysNodup t) (e : Nat) (h : lookup a t = some e) :
    lookup a (t.filter keep) = if keep (a, e) then some e else none := by
  induction t with
  | nil => simp [lookup] at h
  | cons p t ih =>
    rw [keysNodup, List.map_cons, List.nodup_cons] at hnd
    by_cases hp : p.1 = a
    · have hv : p.2 = e := by simpa [lookup, hp] using h
      have hpe : (a, e) = p := by rw [← hp, ← hv]
      rw [hpe]
      by_cases hk : keep p
      · rw [List.filter_cons, if_pos hk, if_pos hk]
        simp [lookup, hp, hv]
      · rw [List.filter_cons, if_neg hk, if_neg hk]
        apply lookup_eq_none_of
        intro q hq hqa
        apply hnd.1
        rw [hp, ← hqa]
        exact List.mem_map_of_mem Prod.fst (List.mem_of_mem_filter hq)
    · simp only [lookup, if_neg hp] at h
      have ih2 := ih hnd.2 h
      by_cases hk : keep p
      · simp [List.filter_cons, hk, lookup, hp, ih2]
      · simp [List.filter_cons, hk, ih2]

theorem filter_length_partition (t : Table) (now : Nat) :
    (t.filter (fun p => decide (p.2 ≤ now))).length +
      (t.filter (fun p => decide (now < p.2))).length = t.length := by
  induction t with
  | nil => rfl
  | cons p t ih =>
    by_cases hp : p.2 ≤ now
    · simp only [List.filter_cons]
      rw [if_pos (by simpa using hp),
        if_neg (by simpa using Nat.not_lt.mpr hp)]
      simp only [List.length_cons]
      omega
    · simp only [List.filter_cons]
      rw [if_neg (by simpa using hp),
        if_pos (by simpa using Nat.lt_of_not_le hp)]
      simp only [List.length_cons]
      omega

/-- Claim C7: after sweep(now), an entry is in the table exactly when it
was before and its expiration exceeds now (so entries with e <= now are
absent and the rest keep their expiration unchanged), and the returned
count equals the number of entries removed. -/
theorem sweep_spec (t : Table) (now : Nat) (hnd : keysNodup t) :
    (∀ p : Nat × Nat, p ∈ (sweep now t).2 ↔ p ∈ t ∧ now < p.2) ∧
    (∀ a e, lookup a t = some e → e ≤ now →
      lookup a (sweep now t).2 = none) ∧
    (∀ a e, lookup a t = some e → now < e →
      lookup a (sweep now t).2 = some e) ∧
    (sweep now t).1 + (sweep now t).2.length = t.length := by
  refine ⟨?_, ?_, ?_, filter_length_partition t now⟩
  · intro p
    simp [sweep, List.mem_filter]
  · intro a e h he
    have hf := lookup_filter a t (fun p => decide (now < p.2)) hnd e h
    simp only [sweep]
    rw [hf, if_neg (by simp [Nat.not_lt.mpr he])]
  · intro a e h he
    have hf := lookup_filter a t (fun p => decide (now < p.2)) hnd e h
    simp only [sweep]
    rw [hf, if_pos (by simp [he])]

/-- Witness for claim C7: sweeping the two-entry table at time 15
removes the entry expiring at 10, keeps the entry expiring at 20 with
its value unchanged, and reports one removal. -/
theorem sweep_spec_witness :
    lookup 1 (sweep 15 [(1, 10), (2, 20)]).2 = none ∧
    lookup 2 (sweep 15 [(1, 10), (2, 20)]).2 = some 20 ∧
    (sweep 15 [(1, 10), (2, 20)]).1 +
      (sweep 15 [(1, 10), (2, 20)]).2.length = 2 := by
  have h := sweep_spec [(1, 10), (2, 20)] 15 (by decide)
  exact ⟨h.2.1 1 10 (by decide) (by decide),
    h.2.2.1 2 20 (by decide) (by decide), h.2.2.2⟩

/-- Claim C8: insertion is idempotent per address: ban(A, d1) followed
by ban(A, d2) leaves exactly one entry for A, whose expiration is the
one computed by the second call, never two entries. -/
theorem ban_idempotent (t : Table) (a d1 d2 n1 n2 : Nat)
    (hnd : keysNodup t) (t1 t2 : Table) (h1 : ban a d1 n1 t = .ok t1)
    (h2 : ban a d2 n2 t1 = .ok t2) :
    countKey a t2 = 1 ∧ lookup a t2 = some (n2 + d2) := by
  have s1 := insert_ok_spec a (n1 + d1) t t1 hnd h1
  have s2 := insert_ok_spec a (n2 + d2) t1 t2 s1.2.2 h2
  exact ⟨s2.2.1, s2.1⟩

/-- Witness for claim C8: banning 10.0.0.1 for 5 seconds at time 10 and
then for 9 seconds at time 20 leaves one entry expiring at 29. -/
theorem ban_idempotent_witness :
    countKey waddr [(waddr, 29)] = 1 ∧
    lookup waddr [(waddr, 29)] = some (20 + 9) :=
  ban_idempotent [] waddr 5 9 10 20 (by simp [keysNodup])
    [(waddr, 15)] [(waddr, 29)] rfl rfl

/-- Claim C6: every table operation preserves the capacity invariant of
at most MAX_ENTRIES resident addresses; when the table is exactly full,
inserting a new address fails with CapacityExceeded (no eviction, no new
table produced), while inserting an already-present address still
succeeds as an overwrite of the same size. -/
theorem table_capacity (t : Table) (a e : Nat)
    (hcap : t.length ≤ MAX_ENTRIES) :
    (∀ t2, insert a e t = .ok t2 → t2.length ≤ MAX_ENTRIES) ∧
    (∀ now, (sweep now t).2.length ≤ MAX_ENTRIES) ∧
    ((remove a t).2.length ≤ MAX_ENTRIES) ∧
    (t.length = MAX_ENTRIES → lookup a t = none →
      insert a e t = .error .CapacityExceeded) ∧
    (t.length = MAX_ENTRIES → (lookup a t).isSome →
      ∃ t2, insert a e t = .ok t2 ∧ lookup a t2 = some e ∧
        t2.length = MAX_ENTRIES) := by
  refine ⟨?_, ?_, ?_, ?_, ?_⟩
  · intro t2 h
    unfold insert at h
    by_cases hs : (lookup a t).isSome
    · rw [if_pos hs] at h
      injection h with h
      subst h
      rw [overwrite_length]
      exact hcap
    · rw [if_neg hs] at h
      by_cases hc : MAX_ENTRIES ≤ t.length
      · rw [if_pos hc] at h
        exact absurd h (by simp)
      · rw [if_neg hc] at h
        injection h with h
        subst h
        simp only [List.length_cons]
        omega
  · intro now
    exact le_trans (List.length_filter_le _ _) hcap
  · exact le_trans (List.length_filter_le _ _) hcap
  · intro hlen hnone
    unfold insert
    rw [if_neg (by simp [hnone]), if_pos (le_of_eq hlen.symm)]
  · intro hlen hs
    refine ⟨overwrite a e t, ?_, lookup_overwrite_self a e t hs, ?_⟩
    · unfold insert
      rw [if_pos hs]
    · rw [overwrite_length]
      exact hlen

theorem fullT_length : fullT.length = MAX_ENTRIES := by
  simp [fullT]

theorem fullT_lookup_max : lookup MAX_ENTRIES fullT = none := by
  apply lookup_eq_none_of
  intro p hp
  simp only [fullT, List.mem_map, List.mem_range] at hp
  obtain ⟨i, hi, rfl⟩ := hp
  exact Nat.ne_of_lt hi

theorem fullT_lookup_present : (lookup 99999 fullT).isSome := by
  rw [lookup_isSome_iff_mem_keys]
  simp only [fullT, List.map_map, List.mem_map, List.mem_range,
    Function.comp]
  exact ⟨99999, by norm_num [MAX_ENTRIES], rfl⟩

/-- Witness for claim C6: on a table holding exactly 100000 distinct
addresses, inserting the fresh address 100000 fails with
CapacityExceeded, while inserting the resident address 99999 succeeds
as a size-preserving overwrite. -/
theorem table_capacity_witness :
    insert MAX_ENTRIES 7 fullT = .error .CapacityExceeded ∧
    ∃ t2, insert 99999 7 fullT = .ok t2 ∧ lookup 99999 t2 = some 7 ∧
      t2.length = MAX_ENTRIES :=
  ⟨(table_capacity fullT MAX_ENTRIES 7 (le_of_eq fullT_length)).2.2.2.1
      fullT_length fullT_lookup_max,
   (table_capacity fullT 99999 7 (le_of_eq fullT_length)).2.2.2.2
      fullT_length fullT_lookup_present⟩

end Blocker
